import Mathlib

/-
Verification of the regexp2 code-generator emitter (`convert_execute.go`).

The emitter walks a parsed regex node tree and writes Go source text for a
matching routine.  We shallowly embed the decision logic and the structure of
the emitted statements: each `writeLine`/`writeLineFmt` call that produces a
code statement becomes a structured `Line` value (comment-only and blank
separator writes are not modelled, as they carry no code), and emitted boolean
conditions become small expression ASTs with evaluation functions.
-/

namespace RegexpCg

/-! ## Continuation condition of the general loop (`emitExecuteLoop`)

`countIsLessThan` (convert_execute.go:834) renders either `count == 0`
(when the exclusive upper bound is 1) or `count < upper`.  We embed the
rendered comparison as `CountCheck` plus its evaluation. -/

inductive CountCheck where
  | eqZero
  | ltN (n : Nat)
  deriving DecidableEq

def countIsLessThan (exclusiveUpper : Nat) : CountCheck :=
  if exclusiveUpper = 1 then .eqZero else .ltN exclusiveUpper

def CountCheck.eval : CountCheck → Nat → Bool
  | .eqZero, c => c == 0
  | .ltN n, c => decide (c < n)

/-- The sentinel `math.MaxInt32` used by the node model for an unbounded `N`. -/
def maxInt32 : Nat := 2147483647

/-- The loop-continuation condition emitted at convert_execute.go:1141-1182.
`unconditional` is the `goto body` emitted without any `if`. -/
inductive ContinueCond where
  | unconditional
  | countOnly (c : CountCheck)
  | posNeOrCount (c : CountCheck)
  | posNeOrCountAndCount (cmin cmax : CountCheck)
  | posNeOnly
  | posNeAndCount (c : CountCheck)
  deriving DecidableEq

/-- Embedding of the `if`/`else` chain at convert_execute.go:1142-1176 that
chooses the loop-continuation test in `emitExecuteLoop`. -/
def emitExecuteLoop_continueCond (iterationMayBeEmpty : Bool)
    (minIterations maxIterations : Nat) : ContinueCond :=
  if maxIterations = maxInt32 ∧ iterationMayBeEmpty = false then
    .unconditional
  else if iterationMayBeEmpty = false then
    .countOnly (countIsLessThan maxIterations)
  else if 0 < minIterations ∧ maxIterations = maxInt32 then
    .posNeOrCount (countIsLessThan minIterations)
  else if 0 < minIterations then
    .posNeOrCountAndCount (countIsLessThan minIterations) (countIsLessThan maxIterations)
  else if maxIterations = maxInt32 then
    .posNeOnly
  else
    .posNeAndCount (countIsLessThan maxIterations)

/-- Evaluation of an emitted continuation condition at runtime values of
`pos`, the loop's `startingPos` local and `iterationCount`. -/
def ContinueCond.eval : ContinueCond → Int → Int → Nat → Bool
  | .unconditional, _, _, _ => true
  | .countOnly c, _, _, cnt => c.eval cnt
  | .posNeOrCount c, pos, sp, cnt => pos != sp || c.eval cnt
  | .posNeOrCountAndCount cmin cmax, pos, sp, cnt => (pos != sp || cmin.eval cnt) && cmax.eval cnt
  | .posNeOnly, pos, sp, _ => pos != sp
  | .posNeAndCount c, pos, sp, cnt => (pos != sp) && c.eval cnt

/-- The specification's continuation-test table (spec §4.8, step 5),
written directly from the table's six rows. -/
def specLoopContinue (iterationMayBeEmpty : Bool) (minIterations maxIterations : Nat)
    (pos startingPos : Int) (iterationCount : Nat) : Bool :=
  if iterationMayBeEmpty = false then
    if maxIterations = maxInt32 then true
    else decide (iterationCount < maxIterations)
  else if maxIterations = maxInt32 then
    if minIterations = 0 then pos != startingPos
    else pos != startingPos || decide (iterationCount < minIterations)
  else if minIterations = 0 then
    (pos != startingPos) && decide (iterationCount < maxIterations)
  else
    (pos != startingPos || decide (iterationCount < minIterations))
      && decide (iterationCount < maxIterations)

theorem countIsLessThan_eval (k c : Nat) :
    (countIsLessThan k).eval c = decide (c < k) := by
  unfold countIsLessThan
  split
  · next h =>
    subst h
    show (c == 0) = decide (c < 1)
    cases c <;> rfl
  · rfl

/-- C1: for every general `Loop` node on the non-repeater path, the emitted
continuation test agrees, at every runtime state, with the spec's table:
unconditional when iterations cannot be empty and N is infinite;
`iterationCount < N` when iterations cannot be empty and N is finite;
`pos != startingPos` (N infinite, M = 0);
`pos != startingPos OR iterationCount < M` (N infinite, M > 0);
`pos != startingPos AND iterationCount < N` (N finite, M = 0); and
`(pos != startingPos OR iterationCount < M) AND iterationCount < N`
(N finite, M > 0). -/
theorem emitExecuteLoop_continuation_matches_spec_table
    (iterationMayBeEmpty : Bool) (minIterations maxIterations : Nat)
    (pos startingPos : Int) (iterationCount : Nat) :
    (emitExecuteLoop_continueCond iterationMayBeEmpty minIterations maxIterations).eval
        pos startingPos iterationCount
      = specLoopContinue iterationMayBeEmpty minIterations maxIterations
          pos startingPos iterationCount := by
  unfold emitExecuteLoop_continueCond specLoopContinue
  cases iterationMayBeEmpty with
  | false =>
    by_cases hmax : maxIterations = maxInt32 <;>
      simp [hmax, ContinueCond.eval, countIsLessThan_eval]
  | true =>
    by_cases hmin : minIterations = 0 <;> by_cases hmax : maxIterations = maxInt32 <;>
      simp [hmin, hmax, ContinueCond.eval, countIsLessThan_eval, Nat.pos_of_ne_zero,
        Nat.pos_iff_ne_zero]

/-! ## Stack discipline of the general loop's end-of-loop state save

When a general `Loop` is itself inside an outer loop, `emitExecuteLoop` pushes
its state at the end-of-loop label (convert_execute.go:1304-1312) and pops it
on the `LoopBacktrack` path (convert_execute.go:1323-1331).  `emitStackPush`
pushes its arguments left to right and `emitStackPop` assigns one popped value
per argument, so a pop list matches a push list exactly when it is its
reverse.  We embed the four push and pop argument lists, using the reserved
base names of the involved locals (`loop_starting_pos` for `startingPos`,
`startingStackpos`, `loop_iteration` for `iterationCount`). -/

def emitExecuteLoop_statePushArgs (hasStartingPos hasStartingStackpos : Bool) : List String :=
  if hasStartingPos && hasStartingStackpos then
    ["loop_starting_pos", "startingStackpos", "loop_iteration"]
  else if hasStartingPos then
    ["loop_starting_pos", "loop_iteration"]
  else if hasStartingStackpos then
    ["startingStackpos", "loop_iteration"]
  else
    ["loop_iteration"]

/-- Embedding of the pop argument lists at convert_execute.go:1323-1331; note
line 1324 names `startingPos` twice instead of `startingStackpos` then
`startingPos`. -/
def emitExecuteLoop_statePopArgs (hasStartingPos hasStartingStackpos : Bool) : List String :=
  if hasStartingPos && hasStartingStackpos then
    ["loop_iteration", "loop_starting_pos", "loop_starting_pos"]
  else if hasStartingPos then
    ["loop_iteration", "loop_starting_pos"]
  else if hasStartingStackpos then
    ["loop_iteration", "startingStackpos"]
  else
    ["loop_iteration"]

/-- C2: at the end-of-loop label of a general loop that is inside an outer
loop and has both a `startingPos` and a `startingStackpos`, the source pushes
`(startingPos, startingStackpos, iterationCount)` but the `LoopBacktrack` pop
sequence is `(iterationCount, startingPos, startingPos)` - not the reverse of
the push, so `startingStackpos` is never restored.  The other three
configurations do pop in reverse order of the push. -/
theorem emitExecuteLoop_state_pop_not_reverse_of_push :
    emitExecuteLoop_statePopArgs true true
        = ["loop_iteration", "loop_starting_pos", "loop_starting_pos"]
      ∧ (emitExecuteLoop_statePushArgs true true).reverse
        = ["loop_iteration", "startingStackpos", "loop_starting_pos"]
      ∧ emitExecuteLoop_statePopArgs true true
          ≠ (emitExecuteLoop_statePushArgs true true).reverse
      ∧ emitExecuteLoop_statePopArgs false true
          = (emitExecuteLoop_statePushArgs false true).reverse
      ∧ emitExecuteLoop_statePopArgs true false
          = (emitExecuteLoop_statePushArgs true false).reverse
      ∧ emitExecuteLoop_statePopArgs false false
          = (emitExecuteLoop_statePushArgs false false).reverse := by
  refine ⟨rfl, rfl, ?_, rfl, rfl, rfl⟩
  decide

/-! ## Balancing-group pre-check in `emitExecuteCapture` -/

/-- The jump condition of a conditional `goto doneLabel` guarded by a
`r.IsMatched` test: positive polarity jumps when the group is matched,
negative polarity jumps when it is not. -/
inductive MatchedCheck where
  | isMatchedPos (grp : Int)
  | isMatchedNeg (grp : Int)
  deriving DecidableEq

def MatchedCheck.eval : MatchedCheck → (Int → Bool) → Bool
  | .isMatchedPos g, isMatched => isMatched g
  | .isMatchedNeg g, isMatched => !isMatched g

/-- Embedding of convert_execute.go:1747-1751: for a balancing group
(`uncapnum != -1`) the emitted pre-check is `if r.IsMatched(uncapnum)`
followed by a jump to `doneLabel`; `none` when not a balancing group. -/
def emitExecuteCapture_precheckJump (uncapnum : Int) : Option MatchedCheck :=
  if uncapnum != -1 then some (.isMatchedPos uncapnum) else none

/-- Modelled from the spec: the pre-check is to jump to `doneLabel` (fail)
exactly when `isMatched(uncapnum)` is false. -/
def specCapture_precheckJump (uncapnum : Int) : Option MatchedCheck :=
  if uncapnum != -1 then some (.isMatchedNeg uncapnum) else none

/-- C3: for a balancing group with `uncapnum = 1` and a runner on which group
1 is matched, the emitted pre-check jumps to `doneLabel` (evaluates to
`true`), while the spec's pre-check proceeds into the child (evaluates to
`false`): the emitted guard at convert_execute.go:1748 has inverted polarity. -/
theorem emitExecuteCapture_balancing_precheck_polarity_bug :
    (emitExecuteCapture_precheckJump 1).map (fun c => c.eval fun _ => true) = some true
      ∧ (specCapture_precheckJump 1).map (fun c => c.eval fun _ => true) = some false := by
  exact ⟨rfl, rfl⟩

/-! ## Right-to-left Multi emission (`emitExecuteMultiCharString`) -/

/-- Embedding of convert_execute.go:472: the emitted right-to-left length
guard jumps to `doneLabel` when `pos - L >= r.Runtextlen`. -/
def emitExecuteMultiCharString_rtlGuardJump (pos strLen runtextlen : Int) : Bool :=
  decide (pos - strLen ≥ runtextlen)

/-- Modelled from the spec: jump to `doneLabel` unless at least `L`
characters precede `pos` in the input. -/
def specMultiRtlGuardJump (pos strLen : Int) : Bool :=
  decide (pos < strLen)

/-- Embedding of convert_execute.go:476-478: the descending loop's emitted
comparison reads the literal at index `L - i` on iteration `i`
(`if r.Runtext[pos] != str[L - i]`). -/
def emitExecuteMultiCharString_rtlLiteralIndex (strLen i : Int) : Int :=
  strLen - i

/-- Modelled from the spec: the comparison should walk the literal from its
last character (index `L - 1`) down to its first (index 0). -/
def specMultiRtlLiteralIndex (strLen i : Int) : Int :=
  strLen - 1 - i

/-- C5: for a right-to-left Multi of length 2 matched at `pos = 0` with
`Runtextlen = 5`, the emitted length guard does not jump even though fewer
than 2 characters precede `pos` (the spec's guard does jump), and on the
first loop iteration the emitted code reads the literal at index 2, which is
out of range for a 2-character literal (the spec reads index 1, the last
character). -/
theorem emitExecuteMultiCharString_rtl_guard_and_index_bug :
    emitExecuteMultiCharString_rtlGuardJump 0 2 5 = false
      ∧ specMultiRtlGuardJump 0 2 = true
      ∧ emitExecuteMultiCharString_rtlLiteralIndex 2 0 = 2
      ∧ specMultiRtlLiteralIndex 2 0 = 1
      ∧ ¬ (emitExecuteMultiCharString_rtlLiteralIndex 2 0 < 2) := by
  refine ⟨rfl, rfl, rfl, rfl, ?_⟩
  decide

/-! ## Structured model of emitted statements

Each `writeLine`/`writeLineFmt` call that produces a code statement is one
`Line`.  Comment-only writes and blank separator lines carry no code and are
not modelled.  Conditions of emitted `if` statements appear either as `raw`
text or as a small condition AST (`CondE`, used by the alternation). -/

inductive CondE where
  | lenEqZero
  | lenLt (k : Nat)
  | notStartsWith (ssp : Nat) (s : List Char)
  | charNe (ssp : Nat) (c : Char)
  | orE (a b : CondE)
  deriving DecidableEq

inductive Line where
  | raw (text : String)
  | assign (lhs rhs : String)
  | incr (v : String)
  | decr (v : String)
  | addAssign (v : String) (k : Int)
  | subAssign (v : String) (k : Int)
  | gotoL (l : String)
  | labelMark (l : String)
  | returnNil
  | uncaptureUntil (arg : String)
  | stackPushL (args : List String)
  | stackPopInto (v : String)
  | sliceInput
  | ifOpen (c : CondE)
  | closeBrace
  | switchOpen (ssp : Nat)
  | caseOpen (chars : List Char)
  | caseDefault
  deriving DecidableEq

/-- The regex node kinds of `regexp2/syntax` that `convert_execute.go`
handles (`syntax.NtEmpty`, `syntax.NtNothing`, ...). -/
inductive NodeType where
  | NtEmpty | NtNothing | NtOne | NtNotone | NtSet | NtMulti
  | NtConcatenate | NtAlternate | NtLoop | NtLazyloop
  | NtOneloop | NtNotoneloop | NtSetloop
  | NtOnelazy | NtNotonelazy | NtSetlazy
  | NtAtomic | NtCapture | NtRef | NtBackRefCond | NtExprCond
  | NtPosLook | NtNegLook
  | NtBeginning | NtStart | NtBol | NtEol | NtEnd | NtEndZ
  | NtBoundary | NtNonboundary | NtECMABoundary | NtNonECMABoundary
  | NtUpdateBumpalong
  deriving DecidableEq

/-! ## Degenerate shortcuts of `emitExecute` (convert_execute.go:26-65) -/

/-- Embedding of the degenerate-shortcut prologue of `emitExecute`.  `some
lines` means `emitExecute` returns before reaching the dispatcher
(`emitExecuteNode`); `none` means the general path runs, which is the only
path that dispatches on the root's first child. -/
def emitExecute_shortcut (rtl : Bool) (rootT : NodeType) (rootStr : List Char) :
    Option (List Line) :=
  if rootT = .NtEmpty then
    some [.raw "var pos = r.Runtextpos", .raw "r.Capture(0, pos, pos)", .raw "return nil"]
  else if rootT = .NtNothing then
    some [.raw "return nil"]
  else if rootT = .NtMulti ∨ rootT = .NtOne ∨ rootT = .NtNotone ∨ rootT = .NtSet then
    let op := if rtl then "-" else "+"
    let jmp := if rootT = .NtMulti then rootStr.length else 1
    some [.raw "var start = r.Runtextpos",
          .raw ("var end = r.Runtextpos " ++ op ++ " " ++ toString jmp),
          .raw "r.Runtextpos = end",
          .raw "r.Capture(0, start, end)",
          .raw "return nil"]
  else
    none

/-- Whether `emitExecute` reaches the node dispatcher for this root. -/
def emitExecute_invokesDispatcher (rtl : Bool) (rootT : NodeType) (rootStr : List Char) : Bool :=
  (emitExecute_shortcut rtl rootT rootStr).isNone

/-- C7: when the root's first child is `Empty`, `emitExecute` emits exactly a
zero-length capture of group 0 at the current position followed by a success
return; when it is `Nothing`, exactly a bare return; in both cases the node
dispatcher is never invoked and no other statements are emitted. -/
theorem emitExecute_degenerate_shortcuts (rtl : Bool) (rootStr : List Char) :
    emitExecute_shortcut rtl .NtEmpty rootStr
        = some [.raw "var pos = r.Runtextpos", .raw "r.Capture(0, pos, pos)",
                .raw "return nil"]
      ∧ emitExecute_shortcut rtl .NtNothing rootStr = some [.raw "return nil"]
      ∧ emitExecute_invokesDispatcher rtl .NtEmpty rootStr = false
      ∧ emitExecute_invokesDispatcher rtl .NtNothing rootStr = false :=
  ⟨rfl, rfl, rfl, rfl⟩

/-! ## The slice-position tracker (`transferSliceStaticPosToPos`) -/

/-- The emitter state relevant to the slice-position tracker. -/
structure EmitState where
  out : List Line
  sliceStaticPos : Nat
  deriving DecidableEq

/-- Embedding of `emitAddStmt` (convert_execute.go:1970-1983). -/
def emitAddStmt (vr : String) (value : Int) : List Line :=
  if value = 0 then []
  else if value = 1 then [.incr vr]
  else if value = -1 then [.decr vr]
  else if 0 < value then [.addAssign vr value]
  else [.subAssign vr (-value)]

/-- Embedding of `transferSliceStaticPosToPos` (convert_execute.go:1960-1968):
when `sliceStaticPos > 0`, emit the pos advance and the reslice
(`sliceInputSpan`) and zero `sliceStaticPos`; otherwise reslice only when
`forceSliceReload` is set. -/
def transferSliceStaticPosToPos (forceSliceReload : Bool) (s : EmitState) : EmitState :=
  if 0 < s.sliceStaticPos then
    { out := s.out ++ emitAddStmt "pos" s.sliceStaticPos ++ [.sliceInput],
      sliceStaticPos := 0 }
  else if forceSliceReload then
    { s with out := s.out ++ [.sliceInput] }
  else s

theorem transferSliceStaticPosToPos_zero (f : Bool) (s : EmitState) :
    (transferSliceStaticPosToPos f s).sliceStaticPos = 0 := by
  unfold transferSliceStaticPosToPos
  split
  · rfl
  · next h =>
    have h0 : s.sliceStaticPos = 0 := by omega
    split <;> simp [h0]

theorem transferSliceStaticPosToPos_noop (s : EmitState) (h : s.sliceStaticPos = 0) :
    transferSliceStaticPosToPos false s = s := by
  simp [transferSliceStaticPosToPos, h]

/-- C10: `transferSliceStaticPosToPos` always establishes
`sliceStaticPos = 0`; with `sliceStaticPos = 0` and no forced reload it emits
nothing and leaves the state unchanged, so a second consecutive call is a
no-op; and with `sliceStaticPos > 0` it emits exactly the pos advance
followed by the reslice of the input span. -/
theorem transferSliceStaticPosToPos_idempotent_postcondition :
    (∀ (f : Bool) (s : EmitState), (transferSliceStaticPosToPos f s).sliceStaticPos = 0)
      ∧ (∀ s : EmitState, s.sliceStaticPos = 0 → transferSliceStaticPosToPos false s = s)
      ∧ (∀ s : EmitState,
          transferSliceStaticPosToPos false (transferSliceStaticPosToPos false s)
            = transferSliceStaticPosToPos false s)
      ∧ (∀ s : EmitState, 0 < s.sliceStaticPos →
          (transferSliceStaticPosToPos false s).out
            = s.out ++ emitAddStmt "pos" s.sliceStaticPos ++ [Line.sliceInput]) := by
  refine ⟨transferSliceStaticPosToPos_zero, transferSliceStaticPosToPos_noop, ?_, ?_⟩
  · intro s
    exact transferSliceStaticPosToPos_noop _ (transferSliceStaticPosToPos_zero false s)
  · intro s h
    simp [transferSliceStaticPosToPos, h]

theorem transferSliceStaticPosToPos_witness :
    transferSliceStaticPosToPos false ⟨[], 0⟩ = (⟨[], 0⟩ : EmitState)
      ∧ (transferSliceStaticPosToPos false ⟨[], 2⟩).out
          = [Line.addAssign "pos" 2, Line.sliceInput] := by
  refine ⟨transferSliceStaticPosToPos_idempotent_postcondition.2.1 ⟨[], 0⟩ rfl, ?_⟩
  have h := transferSliceStaticPosToPos_idempotent_postcondition.2.2.2 ⟨[], 2⟩ (by decide)
  exact h.trans (by decide)

/-! ## Uncapture discipline (`expressionHasCaptures`)

Every reference to `r.UncaptureUntil` or `r.Crawlpos()` in the emitters is
guarded on `expressionHasCaptures`.  We embed each piece of
capture-related boilerplate cited by the spec and check that with
`expressionHasCaptures = false` none of the produced lines references the
capture machinery. -/

/-- Whether a line calls `r.UncaptureUntil` or mentions `r.Crawlpos()`. -/
def referencesCaptureState : Line → Bool
  | .uncaptureUntil _ => true
  | .stackPushL args => args.contains "r.Crawlpos()"
  | .assign _ rhs => rhs == "r.Crawlpos()"
  | _ => false

/-- Embedding of `emitExecuteGoto` (convert_execute.go:1818-1830): a jump to
the top-level done label becomes the failure epilogue (uncapture-to-0 only
when captures exist, then the bare return); any other label is a `goto`. -/
def emitExecuteGotoLines (expressionHasCaptures isTopLevelDone : Bool)
    (label : String) : List Line :=
  if isTopLevelDone then
    (if expressionHasCaptures then [.uncaptureUntil "0"] else []) ++ [.returnNil]
  else
    [.gotoL label]

/-- Embedding of the single-char loop's backtracking restore
(convert_execute.go:596-613). -/
def emitExecuteSingleCharLoop_backtrackRestore (expressionHasCaptures isInLoop : Bool) :
    List Line :=
  if isInLoop then
    (if expressionHasCaptures then [.uncaptureUntil "r.StackPop()"] else [])
      ++ [.stackPopInto "charloop_ending_pos", .stackPopInto "charloop_starting_pos"]
  else if expressionHasCaptures then
    [.uncaptureUntil "charloop_capture_pos"]
  else
    []

/-- Embedding of the single-char loop's end-of-loop state save
(convert_execute.go:670-685). -/
def emitExecuteSingleCharLoop_endSave (expressionHasCaptures isInLoop : Bool) : List Line :=
  if isInLoop then
    if expressionHasCaptures then
      [.stackPushL ["charloop_starting_pos", "charloop_ending_pos", "r.Crawlpos()"]]
    else
      [.stackPushL ["charloop_starting_pos", "charloop_ending_pos"]]
  else if expressionHasCaptures then
    [.assign "charloop_capture_pos" "r.Crawlpos()"]
  else
    []

/-- Embedding of the general loop's per-iteration state push
(convert_execute.go:1101-1109). -/
def emitExecuteLoop_bodyStatePush (expressionHasCaptures iterationMayBeEmpty : Bool) :
    List Line :=
  if expressionHasCaptures && iterationMayBeEmpty then
    [.stackPushL ["r.Crawlpos()", "loop_starting_pos", "pos"]]
  else if expressionHasCaptures then
    [.stackPushL ["r.Crawlpos()", "pos"]]
  else if iterationMayBeEmpty then
    [.stackPushL ["loop_starting_pos", "pos"]]
  else
    [.stackPushL ["pos"]]

/-- Embedding of the general loop's iteration-failed restore
(convert_execute.go:1202-1213). -/
def emitExecuteLoop_iterationFailedRestore (expressionHasCaptures iterationMayBeEmpty : Bool) :
    List Line :=
  (if iterationMayBeEmpty then [.stackPopInto "pos", .stackPopInto "loop_starting_pos"]
   else [.stackPopInto "pos"])
    ++ (if expressionHasCaptures then [.uncaptureUntil "r.StackPop()"] else [])
    ++ [.sliceInput]

/-- Embedding of the alternation's crawl-position snapshot
(convert_execute.go:1563-1572). -/
def emitExecuteAlternation_capturePosInit
    (expressionHasCaptures mayContainCapture isAtomic : Bool) : List Line :=
  if expressionHasCaptures && (mayContainCapture || !isAtomic) then
    [.assign "alternation_starting_capturepos" "r.Crawlpos()"]
  else
    []

/-- Embedding of the alternation's next-branch reset
(convert_execute.go:1657-1666). -/
def emitExecuteAlternation_branchReset
    (expressionHasCaptures mayContainCapture isAtomic : Bool) : List Line :=
  [.assign "pos" "alternation_starting_pos", .sliceInput]
    ++ (if expressionHasCaptures && (mayContainCapture || !isAtomic) then
          [.uncaptureUntil "alternation_starting_capturepos"]
        else [])

/-- Embedding of the capture emitter's backtracking section
(convert_execute.go:1778-1804). -/
def emitExecuteCapture_backtrackSection
    (expressionHasCaptures isInLoop doneIsTopLevel : Bool) (doneLabel : String) : List Line :=
  (if isInLoop then [.stackPushL ["capture_starting_pos"]] else [])
    ++ [.gotoL "CaptureSkipBacktrack", .labelMark "CaptureBacktrack"]
    ++ (if isInLoop then [.stackPopInto "capture_starting_pos"] else [])
    ++ emitExecuteGotoLines expressionHasCaptures doneIsTopLevel doneLabel
    ++ [.labelMark "CaptureSkipBacktrack"]

/-- C8: with `expressionHasCaptures = false`, none of the capture-related
emission sites (the failure epilogue of `emitExecuteGoto`, the single-char
loop, the general loop, the alternation, and the capture emitter) produces a
line that calls `UncaptureUntil` or mentions `Crawlpos`. -/
theorem no_capture_boilerplate_when_expressionHasCaptures_false :
    ∀ (isTopLevelDone isInLoop iterationMayBeEmpty mayContainCapture isAtomic : Bool)
      (label : String),
      (emitExecuteGotoLines false isTopLevelDone label).all
          (fun l => !referencesCaptureState l) = true
      ∧ (emitExecuteSingleCharLoop_backtrackRestore false isInLoop).all
          (fun l => !referencesCaptureState l) = true
      ∧ (emitExecuteSingleCharLoop_endSave false isInLoop).all
          (fun l => !referencesCaptureState l) = true
      ∧ (emitExecuteLoop_bodyStatePush false iterationMayBeEmpty).all
          (fun l => !referencesCaptureState l) = true
      ∧ (emitExecuteLoop_iterationFailedRestore false iterationMayBeEmpty).all
          (fun l => !referencesCaptureState l) = true
      ∧ (emitExecuteAlternation_capturePosInit false mayContainCapture isAtomic).all
          (fun l => !referencesCaptureState l) = true
      ∧ (emitExecuteAlternation_branchReset false mayContainCapture isAtomic).all
          (fun l => !referencesCaptureState l) = true
      ∧ (emitExecuteCapture_backtrackSection false isInLoop isTopLevelDone label).all
          (fun l => !referencesCaptureState l) = true := by
  intro t l e m a lbl
  refine ⟨?_, ?_, ?_, ?_, ?_, ?_, ?_, ?_⟩ <;>
    cases t <;> cases l <;> cases e <;> cases m <;> cases a <;>
      simp [emitExecuteGotoLines, emitExecuteSingleCharLoop_backtrackRestore,
        emitExecuteSingleCharLoop_endSave, emitExecuteLoop_bodyStatePush,
        emitExecuteLoop_iterationFailedRestore, emitExecuteAlternation_capturePosInit,
        emitExecuteAlternation_branchReset, emitExecuteCapture_backtrackSection,
        referencesCaptureState]

/-! ## Anchors (`emitExecuteAnchors`, convert_execute.go:956-1009)

Each anchor emits (at most) a single conditional jump to `doneLabel`.  We
embed the emitted fail conditions as an AST and evaluate them against a view
of the runner.  When `sliceStaticPos > 0` the emitted condition reads `slice`
at static offsets; otherwise it reads `pos`, `r.Runtextend` and `r.Runtext`. -/

def newline : Char := Char.ofNat 10

/-- Total character read used to model indexing into `slice`; reads past the
end are never reached by the guarded emitted conditions. -/
def charAt (l : List Char) (i : Nat) : Char := l.getD i newline

inductive AnchorCond where
  | posNeZero
  | posNeStart
  | statBolPrev (ssp : Nat)
  | dynBolPrev
  | statEnd (ssp : Nat)
  | dynEnd
  | statEndZ (ssp : Nat)
  | dynEndZ
  | statEol (ssp : Nat)
  | dynEol
  deriving DecidableEq

inductive AnchorEmit where
  | alwaysFail
  | failIf (c : AnchorCond)
  deriving DecidableEq

/-- Embedding of the `switch` in `emitExecuteAnchors`: for each anchor kind,
the emitted jump-to-`doneLabel` condition (`alwaysFail` is the unguarded
`emitExecuteGoto` of the `Beginning`/`Start` static case); `none` for
non-anchor kinds, for which the function emits nothing. -/
def emitExecuteAnchors (t : NodeType) (ssp : Nat) : Option AnchorEmit :=
  match t with
  | .NtBeginning => if 0 < ssp then some .alwaysFail else some (.failIf .posNeZero)
  | .NtStart => if 0 < ssp then some .alwaysFail else some (.failIf .posNeStart)
  | .NtBol => some (.failIf (if 0 < ssp then .statBolPrev ssp else .dynBolPrev))
  | .NtEnd => some (.failIf (if 0 < ssp then .statEnd ssp else .dynEnd))
  | .NtEndZ => some (.failIf (if 0 < ssp then .statEndZ ssp else .dynEndZ))
  | .NtEol => some (.failIf (if 0 < ssp then .statEol ssp else .dynEol))
  | _ => none

/-- A view of the runner state read by the emitted anchor conditions:
`pos`, `r.Runtextstart`, `r.Runtextend`, the input accessor `r.Runtext`,
and the current `slice` (`r.Runtext[pos:]`). -/
structure RunnerView where
  pos : Int
  runtextstart : Int
  runtextend : Int
  text : Int → Char
  slice : List Char

/-- Evaluation of an emitted anchor fail condition, transcribing the
condition text written by each `writeLine`/`writeLineFmt`. -/
def AnchorCond.eval (c : AnchorCond) (r : RunnerView) : Bool :=
  match c with
  | .posNeZero => r.pos != 0
  | .posNeStart => r.pos != r.runtextstart
  | .statBolPrev ssp => charAt r.slice (ssp - 1) != newline
  | .dynBolPrev => decide (0 < r.pos) && (r.text (r.pos - 1) != newline)
  | .statEnd ssp => decide (ssp < r.slice.length)
  | .dynEnd => decide (r.pos < r.runtextend)
  | .statEndZ ssp =>
      decide (ssp + 1 < r.slice.length)
        || (decide (ssp < r.slice.length) && (charAt r.slice ssp != newline))
  | .dynEndZ =>
      decide (r.pos < r.runtextend - 1)
        || (decide (r.pos < r.runtextend) && (r.text r.pos != newline))
  | .statEol ssp => decide (ssp < r.slice.length) && (charAt r.slice ssp != newline)
  | .dynEol => decide (r.pos < r.runtextend) && (r.text r.pos != newline)

/-- Whether the emitted anchor code for kind `t` jumps to `doneLabel` on
runner state `r` (`some true` jumps, `some false` falls through). -/
def anchorFailsAt (t : NodeType) (ssp : Nat) (r : RunnerView) : Option Bool :=
  (emitExecuteAnchors t ssp).map fun e =>
    match e with
    | .alwaysFail => true
    | .failIf c => c.eval r

/-- C6: the anchor emissions realize the spec's semantics.  `Beginning` fails
unless `pos = 0` and is an unconditional failure when `sliceStaticPos > 0`;
`End` fails unless at the end of the input; `EndZ` fails unless at the end or
at end-1 with a final newline; `Eol` fails unless at the end or the next
character is a newline - in the static forms the condition reads `slice` at
the static offset, otherwise it reads `pos` and the runner's end. -/
theorem emitExecuteAnchors_conditions_match_spec (ssp : Nat) (r : RunnerView) :
    (0 < ssp → anchorFailsAt .NtBeginning ssp r = some true)
      ∧ (anchorFailsAt .NtBeginning 0 r = some true ↔ ¬ r.pos = 0)
      ∧ (r.pos ≤ r.runtextend →
          (anchorFailsAt .NtEnd 0 r = some true ↔ ¬ r.pos = r.runtextend))
      ∧ (0 < ssp → ssp ≤ r.slice.length →
          (anchorFailsAt .NtEnd ssp r = some true ↔ ¬ r.slice.length = ssp))
      ∧ (r.pos ≤ r.runtextend →
          (anchorFailsAt .NtEndZ 0 r = some true
            ↔ ¬ (r.pos = r.runtextend
                  ∨ (r.pos = r.runtextend - 1 ∧ r.text r.pos = newline))))
      ∧ (0 < ssp → ssp ≤ r.slice.length →
          (anchorFailsAt .NtEndZ ssp r = some true
            ↔ ¬ (r.slice.length = ssp
                  ∨ (r.slice.length = ssp + 1 ∧ charAt r.slice ssp = newline))))
      ∧ (r.pos ≤ r.runtextend →
          (anchorFailsAt .NtEol 0 r = some true
            ↔ ¬ (r.pos = r.runtextend ∨ r.text r.pos = newline)))
      ∧ (0 < ssp → ssp ≤ r.slice.length →
          (anchorFailsAt .NtEol ssp r = some true
            ↔ ¬ (r.slice.length = ssp ∨ charAt r.slice ssp = newline))) := by
  refine ⟨?_, ?_, ?_, ?_, ?_, ?_, ?_, ?_⟩
  · intro h
    simp [anchorFailsAt, emitExecuteAnchors, h]
  · simp [anchorFailsAt, emitExecuteAnchors, AnchorCond.eval]
  · intro hle
    simp [anchorFailsAt, emitExecuteAnchors, AnchorCond.eval] <;> omega
  · intro h hlen
    simp [anchorFailsAt, emitExecuteAnchors, AnchorCond.eval, h] <;> omega
  · intro hle
    by_cases hn : r.text r.pos = newline <;>
      simp [anchorFailsAt, emitExecuteAnchors, AnchorCond.eval, hn] <;> omega
  · intro h hlen
    by_cases hn : charAt r.slice ssp = newline <;>
      simp [anchorFailsAt, emitExecuteAnchors, AnchorCond.eval, h, hn] <;> omega
  · intro hle
    by_cases hn : r.text r.pos = newline <;>
      simp [anchorFailsAt, emitExecuteAnchors, AnchorCond.eval, hn] <;> omega
  · intro h hlen
    by_cases hn : charAt r.slice ssp = newline <;>
      simp [anchorFailsAt, emitExecuteAnchors, AnchorCond.eval, h, hn] <;> omega

theorem emitExecuteAnchors_conditions_witness :
    (anchorFailsAt .NtEnd 1 ⟨0, 0, 0, fun _ => 'a', ['a']⟩ = some true
        ↔ ¬ (['a'] : List Char).length = 1)
      ∧ (anchorFailsAt .NtEnd 0 ⟨0, 0, 0, fun _ => 'a', ['a']⟩ = some true
          ↔ ¬ (0 : Int) = 0) := by
  refine ⟨?_, ?_⟩
  · exact (emitExecuteAnchors_conditions_match_spec 1 ⟨0, 0, 0, fun _ => 'a', ['a']⟩).2.2.2.1
      (by decide) (by decide)
  · exact (emitExecuteAnchors_conditions_match_spec 1 ⟨0, 0, 0, fun _ => 'a', ['a']⟩).2.2.1
      (by decide)

/-! ## The node describer (`describeNode`, convert_execute.go:2000-2199)

`describeNode` renders a human-readable comment for a node.  It reads only
the node's fields and the read-only analysis/tree data carried by
`regexpData`; it writes nothing.  We transcribe it together with its helpers
`describeCapture`, `groupNameFromNumber` and `describeLoop`.  Go's `%q` /
`%#v` renderings and `strconv` are modelled by plain quoting and
`String.toInt?`. -/

/-- The node fields read by the describer.  `setText` models the rendering
`node.Set.String()` provided by the syntax library. -/
structure RegexNode where
  t : NodeType
  rtl : Bool
  ch : Char
  str : List Char
  setText : String
  m : Int
  n : Int
  childCount : Nat

/-- The read-only analysis and tree data consulted by the describer. -/
structure DescriberData where
  isAtomicByAncestor : RegexNode → Bool
  caplist : List String
  capnumlist : Option (List Int)
  captop : Int
  caps : Option (List (Int × Int))

/-- The `regexpData` value as seen by the describer: read-only data plus the
mutable emission state (`doneLabel`, `sliceStaticPos`, the output buffer). -/
structure RegexpData where
  d : DescriberData
  doneLabel : String
  sliceStaticPos : Nat
  out : List Line

/-- Lookup in the `tree.Caps` map, modelled as an association list. -/
def lookupCaps (caps : List (Int × Int)) (i : Int) : Option Int :=
  match caps with
  | [] => none
  | (k, v) :: rest => if k = i then some v else lookupCaps rest i

/-- Embedding of `groupNameFromNumber` (convert_execute.go:2125-2150). -/
def groupNameFromNumber (d : DescriberData) (i : Int) : String :=
  if d.caplist.length = 0 then
    let caplen : Int :=
      match d.capnumlist with
      | none => d.captop
      | some l => l.length
    if 0 ≤ i ∧ i < caplen then toString i else ""
  else
    let j : Option Int :=
      match d.caps with
      | none => some i
      | some cl => lookupCaps cl i
    match j with
    | none => ""
    | some j => if 0 ≤ j ∧ j < d.caplist.length then d.caplist.getD j.toNat "" else ""

def goQuoteChar (c : Char) : String :=
  String.mk [Char.ofNat 39, c, Char.ofNat 39]

def goQuoteString (s : String) : String :=
  String.mk (Char.ofNat 34 :: (s.data ++ [Char.ofNat 34]))

/-- Embedding of `describeCapture` (convert_execute.go:2098-2121), including
its use of `strconv.Atoi` on the group name (`err == nil || id != capNum`
selects the named rendering) and the ordinal suffixes with the 11/12/13
exceptions. -/
def describeCapture (d : DescriberData) (capNum : Int) : String :=
  let name := groupNameFromNumber d capNum
  let parsed := name.toInt?
  if parsed.isSome ∨ parsed.getD 0 ≠ capNum then
    goQuoteString name ++ " capture group"
  else
    let tens := Int.tmod capNum 10
    if (1 ≤ tens ∧ tens ≤ 3) ∧ ¬(capNum = 11 ∨ capNum = 12 ∨ capNum = 13) then
      if tens = 1 then toString capNum ++ "st capture group"
      else if tens = 2 then toString capNum ++ "nd capture group"
      else toString capNum ++ "rd capture group"
    else
      toString capNum ++ "th capture group"

/-- Embedding of `describeLoop` (convert_execute.go:2153-2199). -/
def describeLoop (rm : RegexpData) (node : RegexNode) : String :=
  if node.m = node.n then "exactly " ++ toString node.m ++ " times"
  else
    let style :=
      if node.t = .NtOneloop ∨ node.t = .NtNotoneloop ∨ node.t = .NtSetloop then
        "greedily"
      else if node.t = .NtOnelazy ∨ node.t = .NtNotonelazy ∨ node.t = .NtSetlazy then
        "lazily"
      else if node.t = .NtLoop then
        if rm.d.isAtomicByAncestor node then "greedily and atomically" else "greedily"
      else
        if rm.d.isAtomicByAncestor node then "lazily and atomically" else "lazily"
    let bounds :=
      if node.n = (2147483647 : Int) then
        if node.m = 0 then " any number of times"
        else if node.m = 1 then " at least once"
        else if node.m = 2 then " at least twice"
        else " at least " ++ toString node.m ++ " times"
      else if node.m = 0 then
        if node.n = 1 then ", optionally"
        else " at most " ++ toString node.n ++ " times"
      else
        " at least " ++ toString node.m ++ " and at most " ++ toString node.n ++ " times"
    style ++ bounds

/-- Embedding of `describeNode` (convert_execute.go:2000-2095). -/
def describeNode (rm : RegexpData) (node : RegexNode) : String :=
  let direction := if node.rtl then " right-to-left" else ""
  match node.t with
  | .NtAlternate =>
      "Match with " ++ toString node.childCount ++ " alternative expressions"
        ++ (if rm.d.isAtomicByAncestor node then ", atomically" else "") ++ "."
  | .NtAtomic => "Atomic group."
  | .NtBeginning => "Match if at the beginning of the string."
  | .NtBol => "Match if at the beginning of a line."
  | .NtBoundary => "Match if at a word boundary."
  | .NtCapture =>
      if node.m = -1 ∧ node.n ≠ -1 then
        "Non-capturing balancing group. Uncaptures the "
          ++ describeCapture rm.d node.n ++ "."
      else if node.n ≠ -1 then
        "Balancing group. Captures the " ++ describeCapture rm.d node.m
          ++ " and uncaptures the " ++ describeCapture rm.d node.n ++ "."
      else
        describeCapture rm.d node.m
  | .NtConcatenate => "Match a sequence of expressions."
  | .NtECMABoundary => "Match if at a word boundary (according to ECMAScript rules)."
  | .NtEmpty => "Match an empty string."
  | .NtEnd => "Match if at the end of the string."
  | .NtEndZ => "Match if at the end of the string or if before an ending newline."
  | .NtEol => "Match if at the end of a line."
  | .NtLoop =>
      if node.m = 0 ∧ node.n = 1 then "Optional (greedy)."
      else "Loop " ++ describeLoop rm node ++ direction ++ "."
  | .NtLazyloop =>
      if node.m = 0 ∧ node.n = 1 then "Optional (lazy)."
      else "Loop " ++ describeLoop rm node ++ direction ++ "."
  | .NtMulti => "Match the string " ++ goQuoteString (String.mk node.str) ++ direction ++ "."
  | .NtNonboundary => "Match if at anything other than a word boundary."
  | .NtNonECMABoundary =>
      "Match if at anything other than a word boundary (according to ECMAScript rules)."
  | .NtNothing => "Fail to match."
  | .NtNotone =>
      "Match any character other than " ++ goQuoteChar node.ch ++ direction ++ "."
  | .NtNotoneloop =>
      "Match a character other than " ++ goQuoteChar node.ch ++ " "
        ++ describeLoop rm node ++ direction ++ "."
  | .NtNotonelazy =>
      "Match a character other than " ++ goQuoteChar node.ch ++ " "
        ++ describeLoop rm node ++ direction ++ "."
  | .NtOne => "Match " ++ goQuoteChar node.ch ++ direction ++ "."
  | .NtOneloop =>
      "Match " ++ goQuoteChar node.ch ++ " " ++ describeLoop rm node ++ direction ++ "."
  | .NtOnelazy =>
      "Match " ++ goQuoteChar node.ch ++ " " ++ describeLoop rm node ++ direction ++ "."
  | .NtNegLook =>
      if node.rtl then "Zero-width negative lookbehind" else "Zero-width negative lookahead"
  | .NtRef =>
      "Match the same text as matched by the " ++ describeCapture rm.d node.m
        ++ direction ++ "."
  | .NtPosLook =>
      if node.rtl then "Zero-width positive lookbehind" else "Zero-width positive lookahead"
  | .NtSet => "Match " ++ node.setText ++ direction ++ "."
  | .NtSetloop =>
      "Match " ++ node.setText ++ " " ++ describeLoop rm node ++ direction ++ "."
  | .NtSetlazy =>
      "Match " ++ node.setText ++ " " ++ describeLoop rm node ++ direction ++ "."
  | .NtStart => "Match if at the start position."
  | .NtExprCond =>
      "Conditionally match one of two expressions depending on whether an initial expression matches."
  | .NtBackRefCond =>
      "Conditionally match one of two expressions depending on whether the "
        ++ describeCapture rm.d node.m ++ " matched."
  | .NtUpdateBumpalong => "Advance the next matching position."

/-- C9: `describeNode` is deterministic and side-effect free.  Its embedding
is a pure function (it threads no state and mutates nothing), and its result
depends only on the node and the read-only analysis/tree data: two calls with
the same node and the same `DescriberData` agree for every pair of mutable
emitter states (`doneLabel`, `sliceStaticPos`, output buffer). -/
theorem describeNode_pure_deterministic
    (d : DescriberData) (dl1 dl2 : String) (ssp1 ssp2 : Nat)
    (out1 out2 : List Line) (node : RegexNode) :
    describeNode ⟨d, dl1, ssp1, out1⟩ node = describeNode ⟨d, dl2, ssp2, out2⟩ node := rfl

/-! ## Alternation strategy selection (`emitExecuteAlternation`)

convert_execute.go:1365-1423 decides whether an alternation can be emitted as
switched branches.  The per-branch inputs are the analysis verdicts and the
result of the syntax library's `FindStartingLiteralNode(false)`, which we
model as `Option StartingLiteral` (a notone-family node, a one-family or
Multi node with its first character, or a set with its negation flag and its
extractable characters from `GetSetChars`). -/

inductive StartingLiteral where
  | notoneFam
  | oneOrMulti (firstChar : Char)
  | setLit (negated : Bool) (chars : List Char)
  deriving DecidableEq

structure BranchInfo where
  mayBacktrack : Bool
  startingLiteral : Option StartingLiteral
  deriving DecidableEq

/-- Embedding of convert_execute.go:1365-1377: switched branches require a
left-to-right node, and atomicity by ancestor or that no branch may
backtrack. -/
def altSwitchPrecondition (rtl isAtomic : Bool) (bs : List BranchInfo) : Bool :=
  if rtl then false
  else isAtomic || bs.all fun b => !b.mayBacktrack

/-- One step of the `seenChars` bookkeeping: fail on a repeated character. -/
def seenInsert (seen : List Char) (c : Char) : Option (List Char) :=
  if c ∈ seen then none else some (c :: seen)

/-- The per-set-character loop of convert_execute.go:1413-1420. -/
def addSetChars (seen : List Char) : List Char → Option (List Char)
  | [] => some seen
  | c :: rest =>
    match seenInsert seen c with
    | none => none
    | some s2 => addSetChars s2 rest

/-- The per-branch body of the loop at convert_execute.go:1386-1422: no (or a
notone-family) starting literal disables the optimization; a one/multi
contributes its first character; a set must be non-negated with a non-empty
extracted character list and contributes all its characters. -/
def branchSwitchCheck (seen : List Char) (b : BranchInfo) : Option (List Char) :=
  match b.startingLiteral with
  | none => none
  | some .notoneFam => none
  | some (.oneOrMulti c) => seenInsert seen c
  | some (.setLit negated chars) =>
      if negated || chars.isEmpty then none else addSetChars seen chars

/-- The loop over all branches at convert_execute.go:1385-1422. -/
def branchesSwitchCheck (seen : List Char) : List BranchInfo → Bool
  | [] => true
  | b :: rest =>
    match branchSwitchCheck seen b with
    | none => false
    | some s2 => branchesSwitchCheck s2 rest

/-- The complete `useSwitchedBranches` decision of `emitExecuteAlternation`. -/
def useSwitchedBranches (rtl isAtomic : Bool) (bs : List BranchInfo) : Bool :=
  altSwitchPrecondition rtl isAtomic bs && branchesSwitchCheck [] bs

/-- The starting characters a branch contributes, when usable. -/
def branchStartChars (b : BranchInfo) : Option (List Char) :=
  match b.startingLiteral with
  | none => none
  | some .notoneFam => none
  | some (.oneOrMulti c) => some [c]
  | some (.setLit negated chars) =>
      if negated || chars.isEmpty then none else some chars

/-- Modelled from the claim: switched branches apply iff the node is
left-to-right, and either atomic by ancestor or no branch may backtrack, and
every branch has a guaranteed starting literal that is not notone-family
(sets non-negated with a non-empty extractable character set), and all
starting characters are pairwise disjoint across branches. -/
def specSwitchedBranches (rtl isAtomic : Bool) (bs : List BranchInfo) : Prop :=
  rtl = false
    ∧ (isAtomic = true ∨ ∀ b ∈ bs, b.mayBacktrack = false)
    ∧ (∀ b ∈ bs, (branchStartChars b).isSome = true)
    ∧ (bs.filterMap branchStartChars).Pairwise List.Disjoint

theorem addSetChars_eq (cs : List Char) : ∀ seen : List Char,
    addSetChars seen cs
      = if cs.Nodup ∧ ∀ c ∈ cs, c ∉ seen then some (cs.reverse ++ seen) else none := by
  induction cs with
  | nil =>
    intro seen
    simp [addSetChars]
  | cons c rest ih =>
    intro seen
    simp only [addSetChars, seenInsert]
    by_cases hc : c ∈ seen
    · rw [if_pos hc, if_neg]
      rintro ⟨-, hmem⟩
      exact hmem c (by simp) hc
    · rw [if_neg hc]
      show addSetChars (c :: seen) rest = _
      rw [ih (c :: seen)]
      have hiff : (rest.Nodup ∧ ∀ x ∈ rest, x ∉ c :: seen)
          ↔ ((c :: rest).Nodup ∧ ∀ x ∈ c :: rest, x ∉ seen) := by
        simp only [List.nodup_cons, List.mem_cons]
        constructor
        · rintro ⟨hnd, hmem⟩
          refine ⟨⟨fun hcr => (hmem c hcr) (Or.inl rfl), hnd⟩, ?_⟩
          rintro x (rfl | hx)
          · exact hc
          · exact fun hxs => (hmem x hx) (Or.inr hxs)
        · rintro ⟨⟨hcr, hnd⟩, hmem⟩
          refine ⟨hnd, ?_⟩
          intro x hx
          rintro (rfl | hxs)
          · exact hcr hx
          · exact (hmem x (Or.inr hx)) hxs
      exact if_congr hiff (by simp) rfl

theorem branchSwitchCheck_eq (seen : List Char) (b : BranchInfo) :
    branchSwitchCheck seen b
      = match branchStartChars b with
        | none => none
        | some cs =>
            if cs.Nodup ∧ ∀ c ∈ cs, c ∉ seen then some (cs.reverse ++ seen) else none := by
  rcases b with ⟨mb, sl⟩
  rcases sl with - | sl
  · rfl
  rcases sl with - | ch | ⟨neg, chars⟩
  · rfl
  · simp only [branchSwitchCheck, branchStartChars, seenInsert]
    by_cases hc : ch ∈ seen <;> simp [hc]
  · simp only [branchSwitchCheck, branchStartChars]
    by_cases hne : (neg || chars.isEmpty) = true
    · simp [hne]
    · simp only [Bool.not_eq_true] at hne
      simp only [hne, Bool.false_eq_true, if_false]
      exact addSetChars_eq chars seen

theorem branchesSwitchCheck_iff (bs : List BranchInfo) : ∀ seen : List Char,
    branchesSwitchCheck seen bs = true
      ↔ (∀ b ∈ bs, (branchStartChars b).isSome = true)
        ∧ (bs.filterMap branchStartChars).flatten.Nodup
        ∧ ∀ c ∈ (bs.filterMap branchStartChars).flatten, c ∉ seen := by
  induction bs with
  | nil =>
    intro seen
    simp [branchesSwitchCheck]
  | cons b rest ih =>
    intro seen
    simp only [branchesSwitchCheck, branchSwitchCheck_eq]
    cases hb : branchStartChars b with
    | none => simp [hb]
    | some cs =>
      dsimp only
      simp only [List.filterMap_cons, hb, List.flatten_cons]
      by_cases hcond : cs.Nodup ∧ ∀ c ∈ cs, c ∉ seen
      · rw [if_pos hcond]
        rw [ih (cs.reverse ++ seen)]
        obtain ⟨hnd, hdisj⟩ := hcond
        constructor
        · rintro ⟨hsome, hndF, hmem⟩
          refine ⟨List.forall_mem_cons.mpr ⟨by rw [hb]; rfl, hsome⟩,
            List.nodup_append.mpr ⟨hnd, hndF, ?_⟩,
            List.forall_mem_append.mpr ⟨hdisj, ?_⟩⟩
          · intro a ha haF
            exact (hmem a haF) (List.mem_append.mpr (Or.inl (List.mem_reverse.mpr ha)))
          · intro a haF has
            exact (hmem a haF) (List.mem_append.mpr (Or.inr has))
        · rintro ⟨hsome, hndA, hmemA⟩
          refine ⟨(List.forall_mem_cons.mp hsome).2, (List.nodup_append.mp hndA).2.1, ?_⟩
          intro a haF hmem2
          rcases List.mem_append.mp hmem2 with hacs | has
          · exact (List.nodup_append.mp hndA).2.2 (List.mem_reverse.mp hacs) haF
          · exact (List.forall_mem_append.mp hmemA).2 a haF has
      · rw [if_neg hcond]
        simp only [Bool.false_eq_true, false_iff]
        rintro ⟨-, hndA, hmemA⟩
        exact hcond ⟨(List.nodup_append.mp hndA).1, (List.forall_mem_append.mp hmemA).1⟩

theorem altSwitchPrecondition_iff (rtl isAtomic : Bool) (bs : List BranchInfo) :
    altSwitchPrecondition rtl isAtomic bs = true
      ↔ rtl = false ∧ (isAtomic = true ∨ ∀ b ∈ bs, b.mayBacktrack = false) := by
  cases rtl <;> cases isAtomic <;>
    simp [altSwitchPrecondition, List.all_eq_true]

/-! The `(?>cat|dog|fish)` instance (spec testable property 6) and the shape
of the switched-branches emission. -/

def catDogFishBranches : List BranchInfo :=
  [⟨false, some (.oneOrMulti 'c')⟩, ⟨false, some (.oneOrMulti 'd')⟩,
   ⟨false, some (.oneOrMulti 'f')⟩]

/-- Embedding of `spanLengthCheck` (convert_execute.go:1950-1955). -/
def spanLengthCheckCond (ssp requiredLength : Nat) : CondE :=
  if ssp + requiredLength = 1 then .lenEqZero else .lenLt (ssp + requiredLength)

/-- Embedding of `emitSpanLengthCheck` (convert_execute.go:1944-1948). -/
def emitSpanLengthCheckLines (ehc topLevelDone : Bool) (doneLabel : String)
    (ssp requiredLength : Nat) : List Line :=
  [.ifOpen (spanLengthCheckCond ssp requiredLength)]
    ++ emitExecuteGotoLines ehc topLevelDone doneLabel ++ [.closeBrace]

/-- The left-to-right arm of `emitExecuteMultiCharString`
(convert_execute.go:485-499) with `clauseOnly = false`: the `StartsWith`
conditional plus the `sliceStaticPos` advance. -/
def emitExecuteMultiCharStringLines (ehc topLevelDone : Bool) (doneLabel : String)
    (ssp : Nat) (str : List Char) : List Line × Nat :=
  ([.ifOpen (.notStartsWith ssp str)]
      ++ emitExecuteGotoLines ehc topLevelDone doneLabel ++ [.closeBrace],
    ssp + str.length)

/-- The left-to-right arm of `emitExecuteSingleChar` for a One node with a
length check (convert_execute.go:503-541). -/
def emitExecuteSingleCharLines (ehc topLevelDone : Bool) (doneLabel : String)
    (ssp : Nat) (ch : Char) : List Line × Nat :=
  ([.ifOpen (.orE (spanLengthCheckCond ssp 1) (.charNe ssp ch))]
      ++ emitExecuteGotoLines ehc topLevelDone doneLabel ++ [.closeBrace],
    ssp + 1)

/-- One `case` body of the switched alternation for a branch that is a Multi
node: the `HandleChild` switch (convert_execute.go:1466-1497) followed by the
`transferSliceStaticPosToPos` call at convert_execute.go:1514, with the
alternation's starting `sliceStaticPos` equal to 0.  The first character was
consumed by the switch, the remainder is emitted as a One (original length 2)
or a shorter Multi, and the static position is transferred back to `pos`. -/
def emitSwitchedCaseMulti (ehc topLevelDone : Bool) (doneLabel : String)
    (str : List Char) : List Line :=
  let body :=
    if str.length = 2 then
      emitExecuteSingleCharLines ehc topLevelDone doneLabel 1 (str.getD 1 newline)
    else
      emitExecuteMultiCharStringLines ehc topLevelDone doneLabel 1 (str.drop 1)
  body.1 ++ emitAddStmt "pos" body.2 ++ [.sliceInput]

/-- The switched-branches emission of `emitExecuteAlternation`
(convert_execute.go:1425-1520) for an alternation whose branches are all
Multi nodes, at starting `sliceStaticPos = 0`: one length check for one
character, a switch on `slice[0]`, one case per branch, and a default case
that jumps to `doneLabel`. -/
def emitExecuteAlternation_switchedMultis (ehc topLevelDone : Bool) (doneLabel : String)
    (strs : List (List Char)) : List Line :=
  emitSpanLengthCheckLines ehc topLevelDone doneLabel 0 1
    ++ [.switchOpen 0]
    ++ (strs.map fun s =>
          Line.caseOpen [s.getD 0 newline]
            :: emitSwitchedCaseMulti ehc topLevelDone doneLabel s).flatten
    ++ [.caseDefault] ++ emitExecuteGotoLines ehc topLevelDone doneLabel ++ [.closeBrace]

/-- C4: the switched-branches strategy is selected if and only if the node is
left-to-right, and either atomic by ancestor or no branch may backtrack, and
every branch has a guaranteed starting literal that is not notone-family
(sets: non-negated with a non-empty extractable character set), and all
starting characters are pairwise disjoint across branches (the hypothesis
records that `GetSetChars` never lists a set character twice); and for the
`(?>cat|dog|fish)` instance the strategy applies and the emitted code is a
single length check followed by one switch on `slice[sliceStaticPos]` with
cases for `c`, `d`, `f` and a default case that jumps to `doneLabel`. -/
theorem emitExecuteAlternation_switched_iff_disjoint (rtl isAtomic : Bool)
    (bs : List BranchInfo)
    (hnodup : ∀ b ∈ bs, ∀ cs, branchStartChars b = some cs → cs.Nodup) :
    (useSwitchedBranches rtl isAtomic bs = true ↔ specSwitchedBranches rtl isAtomic bs)
      ∧ useSwitchedBranches false true catDogFishBranches = true
      ∧ emitExecuteAlternation_switchedMultis false false "NoMatch"
            [['c', 'a', 't'], ['d', 'o', 'g'], ['f', 'i', 's', 'h']]
          = [.ifOpen .lenEqZero, .gotoL "NoMatch", .closeBrace,
             .switchOpen 0,
             .caseOpen ['c'], .ifOpen (.notStartsWith 1 ['a', 't']), .gotoL "NoMatch",
               .closeBrace, .addAssign "pos" 3, .sliceInput,
             .caseOpen ['d'], .ifOpen (.notStartsWith 1 ['o', 'g']), .gotoL "NoMatch",
               .closeBrace, .addAssign "pos" 3, .sliceInput,
             .caseOpen ['f'], .ifOpen (.notStartsWith 1 ['i', 's', 'h']), .gotoL "NoMatch",
               .closeBrace, .addAssign "pos" 4, .sliceInput,
             .caseDefault, .gotoL "NoMatch", .closeBrace] := by
  refine ⟨?_, by decide, by decide⟩
  have hforall : ∀ l ∈ bs.filterMap branchStartChars, l.Nodup := by
    intro l hl
    rcases List.mem_filterMap.mp hl with ⟨b, hbmem, hfb⟩
    exact hnodup b hbmem l hfb
  unfold useSwitchedBranches specSwitchedBranches
  rw [Bool.and_eq_true, altSwitchPrecondition_iff, branchesSwitchCheck_iff,
    List.nodup_flatten]
  constructor
  · rintro ⟨⟨h1, h2⟩, h3, ⟨-, h5⟩, -⟩
    exact ⟨h1, h2, h3, h5⟩
  · rintro ⟨h1, h2, h3, h5⟩
    refine ⟨⟨h1, h2⟩, h3, ⟨hforall, h5⟩, ?_⟩
    simp

theorem emitExecuteAlternation_switched_witness :
    useSwitchedBranches false true catDogFishBranches = true
      ↔ specSwitchedBranches false true catDogFishBranches := by
  refine (emitExecuteAlternation_switched_iff_disjoint false true catDogFishBranches ?_).1
  intro b hb cs hcs
  simp only [catDogFishBranches, List.mem_cons, List.not_mem_nil, or_false] at hb
  rcases hb with rfl | rfl | rfl <;>
    · simp only [branchStartChars, Option.some.injEq] at hcs
      subst hcs
      simp

end RegexpCg
